import Mathlib

/-!
Verification of the BSP pathfinding library (bsp-pathfinding).

Shallow embedding conventions:
* Scalars (Rust `f32`) are modelled as exact rationals `ℚ`.  Square roots
  (`Vec2::length`, `normalize`) are modelled with `Rat.sqrt`, which is exact
  whenever the radicand is a perfect rational square; every concrete instance
  evaluated in this file uses such inputs, so no rounding artefact is
  exercised.
* `NodeIndex` (a slotmap key; keys are allocated sequentially and never
  removed) is modelled as `Nat`; the node slab (`SlotMap<NodeIndex, BSPNode>`)
  is an `Array BSPNode` and insertion is `Array.push`.
* Maps (`SecondaryMap`) are association lists or plain functions.
* Рanicking assertions are modelled by `Option` where a claim is about them,
  and noted in comments otherwise.
-/

/-- Two dimensional vector of rationals, modelling `glam::Vec2`.
The fields `x` and `y` match the source. -/
structure Vec2 where
  x : ℚ
  y : ℚ
deriving DecidableEq, Repr

instance : Add Vec2 where
  add a b := ⟨a.x + b.x, a.y + b.y⟩

instance : Sub Vec2 where
  sub a b := ⟨a.x - b.x, a.y - b.y⟩

instance : Neg Vec2 where
  neg a := ⟨-a.x, -a.y⟩

instance : Zero Vec2 where
  zero := ⟨0, 0⟩

instance : SMul ℚ Vec2 where
  smul c v := ⟨c * v.x, c * v.y⟩

/-- Dot product, `Vec2::dot`. -/
def Vec2.dot (a b : Vec2) : ℚ :=
  a.x * b.x + a.y * b.y

/-- Counterclockwise perpendicular, `glam::Vec2::perp` (rotates by +90 degrees). -/
def Vec2.perp (v : Vec2) : Vec2 :=
  ⟨-v.y, v.x⟩

/-- Perpendicular dot product (2d cross product), `glam::Vec2::perp_dot`. -/
def Vec2.perp_dot (a b : Vec2) : ℚ :=
  a.x * b.y - a.y * b.x

/-- Squared length, `Vec2::length_squared`. -/
def Vec2.length_squared (v : Vec2) : ℚ :=
  v.x * v.x + v.y * v.y

/-- Length, `Vec2::length`.  The float square root is modelled by `Rat.sqrt`,
exact on perfect rational squares. -/
def Vec2.length (v : Vec2) : ℚ :=
  Rat.sqrt v.length_squared

/-- Normalization, `Vec2::normalize` (division of the vector by its length;
on the zero vector Rust produces NaN, the model produces the zero vector —
degenerate faces are outside the contract of the library). -/
def Vec2.normalize (v : Vec2) : Vec2 :=
  (1 / v.length) • v

/-- Normalization defaulting to zero, `glam::Vec2::normalize_or_zero`. -/
def Vec2.normalize_or_zero (v : Vec2) : Vec2 :=
  if v = 0 then 0 else v.normalize

/-- Distance between two points, `Vec2::distance`. -/
def Vec2.distance (a b : Vec2) : ℚ :=
  (a - b).length

/-- Squared distance, `Vec2::distance_squared`. -/
def Vec2.distance_squared (a b : Vec2) : ℚ :=
  (a - b).length_squared

/-- Componentwise minimum, `Vec2::min`. -/
def Vec2.cmin (a b : Vec2) : Vec2 :=
  ⟨min a.x b.x, min a.y b.y⟩

/-- Componentwise maximum, `Vec2::max`. -/
def Vec2.cmax (a b : Vec2) : Vec2 :=
  ⟨max a.x b.x, max a.y b.y⟩

/-- The public tolerance constant, `TOLERANCE: f32 = 0.1` in lib.rs. -/
def TOLERANCE : ℚ := 1 / 10

/-- Side of a plane, `shape.rs` enum `Side`. -/
inductive Side where
  | Front
  | Back
  | Coplanar
  | Intersecting
deriving DecidableEq, Repr

/-- A two dimensional face of two vertices with a cached normal
(`shape.rs` struct `Face`).  `v0` and `v1` model `vertices[0]` and
`vertices[1]`. -/
structure Face where
  normal : Vec2
  v0 : Vec2
  v1 : Vec2
deriving DecidableEq, Repr

/-- Face constructor `Face::new`: the normal is the direction rotated
clockwise, `Vec2::new(dir.y, -dir.x)`. -/
def Face.new (a b : Vec2) : Face :=
  let dir := (b - a).normalize
  { normal := ⟨dir.y, -dir.x⟩, v0 := a, v1 := b }

/-- Face length, `Face::length`. -/
def Face.length (f : Face) : ℚ :=
  (f.v0 - f.v1).length

/-- Squared face length, `Face::length_squared`. -/
def Face.length_squared (f : Face) : ℚ :=
  (f.v0 - f.v1).length_squared

/-- Midpoint of a face, `Face::midpoint`. -/
def Face.midpoint (f : Face) : Vec2 :=
  (1 / 2 : ℚ) • (f.v0 + f.v1)

/-- Direction of a face, `Face::dir`. -/
def Face.dir (f : Face) : Vec2 :=
  (f.v1 - f.v0).normalize

/-- Side classification of a face against a plane, `Face::side_of`. -/
def Face.side_of (f : Face) (p normal : Vec2) : Side :=
  let a := (f.v0 - p).dot normal
  let b := (f.v1 - p).dot normal
  if |a| < TOLERANCE ∧ |b| < TOLERANCE then Side.Coplanar
  else if a ≥ -TOLERANCE ∧ b ≥ -TOLERANCE then Side.Front
  else if a ≤ TOLERANCE ∧ b ≤ TOLERANCE then Side.Back
  else Side.Intersecting

/-- Splitting a face at a point on a plane, `Face::split`. -/
def Face.split (f : Face) (p normal : Vec2) : Face × Face :=
  let a := (f.v0 - p).dot normal
  if a ≥ -TOLERANCE then
    (Face.new f.v0 p, Face.new p f.v1)
  else
    (Face.new p f.v1, Face.new f.v0 p)

/-- Touching test between faces, `Face::adjacent`. -/
def Face.adjacent (f other : Face) : Bool :=
  let p := other.midpoint
  let a := (f.v0 - p).dot other.normal
  let b := (f.v1 - p).dot other.normal
  (decide (a < -TOLERANCE) && decide (b > TOLERANCE)) ||
    (decide (b < -TOLERANCE) && decide (a > TOLERANCE))

/-- Overlap test between collinear faces, `Face::overlaps`. -/
def Face.overlaps (f other : Face) : Bool :=
  let dir := f.dir
  let p := f.v0.dot dir
  let q := f.v1.dot dir
  let a := other.v0.dot dir
  let b := other.v1.dot dir
  let ab := if dir.dot other.dir > 0 then (a, b) else (b, a)
  let la := q - ab.1
  let lb := ab.2 - p
  decide (min la lb > TOLERANCE)

/-- Point-on-face test, `Face::contains_point`. -/
def Face.contains_point (f : Face) (p : Vec2) : Bool :=
  let dir := f.dir
  let d := (p - f.v0).dot dir
  decide (d > -TOLERANCE) && decide (d < f.length + TOLERANCE)

/-- Result of a line-plane intersection, `util.rs` struct `Intersect`. -/
structure Intersect where
  point : Vec2
  distance : ℚ
deriving DecidableEq, Repr

/-- Line-plane intersection along a direction, `util::face_intersect_dir`.
In Rust a parallel direction yields an infinite or NaN distance; in the
model the rational division by zero yields 0, and every caller guards the
parallel case (modelled by testing the denominator, see the callers). -/
def face_intersect_dir (a dir p normal : Vec2) : Intersect :=
  let l := (p - a).dot normal / dir.dot normal
  { point := a + l • dir, distance := l }

/-- Line-plane intersection of a segment, `util::face_intersect`. -/
def face_intersect (a0 a1 p normal : Vec2) : Intersect :=
  face_intersect_dir a0 (a1 - a0) p normal

/-- C3: `Face::side_of` computes `a = (v0 − p)·n` and `b = (v1 − p)·n` and
returns Coplanar iff `|a| < TOL` and `|b| < TOL`; otherwise Front iff
`a ≥ −TOL` and `b ≥ −TOL`; otherwise Back iff `a ≤ TOL` and `b ≤ TOL`;
otherwise Intersecting, with `TOL = 0.1`. -/
theorem side_of_characterization (f : Face) (p n : Vec2) :
    (TOLERANCE = 1 / 10) ∧
    (f.side_of p n = Side.Coplanar ↔
      |(f.v0 - p).dot n| < TOLERANCE ∧ |(f.v1 - p).dot n| < TOLERANCE) ∧
    (f.side_of p n = Side.Front ↔
      ¬(|(f.v0 - p).dot n| < TOLERANCE ∧ |(f.v1 - p).dot n| < TOLERANCE) ∧
      (f.v0 - p).dot n ≥ -TOLERANCE ∧ (f.v1 - p).dot n ≥ -TOLERANCE) ∧
    (f.side_of p n = Side.Back ↔
      ¬(|(f.v0 - p).dot n| < TOLERANCE ∧ |(f.v1 - p).dot n| < TOLERANCE) ∧
      ¬((f.v0 - p).dot n ≥ -TOLERANCE ∧ (f.v1 - p).dot n ≥ -TOLERANCE) ∧
      (f.v0 - p).dot n ≤ TOLERANCE ∧ (f.v1 - p).dot n ≤ TOLERANCE) ∧
    (f.side_of p n = Side.Intersecting ↔
      ¬(|(f.v0 - p).dot n| < TOLERANCE ∧ |(f.v1 - p).dot n| < TOLERANCE) ∧
      ¬((f.v0 - p).dot n ≥ -TOLERANCE ∧ (f.v1 - p).dot n ≥ -TOLERANCE) ∧
      ¬((f.v0 - p).dot n ≤ TOLERANCE ∧ (f.v1 - p).dot n ≤ TOLERANCE)) := by
  refine ⟨rfl, ?_, ?_, ?_, ?_⟩ <;>
    · unfold Face.side_of
      dsimp only
      split_ifs <;> simp_all

/-- C8: `Face::adjacent` returns true iff, with `a` and `b` the signed
distances of the endpoints of `self` to the plane through the midpoint of
`other` with the normal of `other`, one of them is strictly below `−TOL`
and the other strictly above `TOL` (a strict XOR of the endpoint side
signs). -/
theorem adjacent_characterization (f g : Face) :
    f.adjacent g = true ↔
      (((f.v0 - g.midpoint).dot g.normal < -TOLERANCE ∧
        (f.v1 - g.midpoint).dot g.normal > TOLERANCE) ∨
       ((f.v1 - g.midpoint).dot g.normal < -TOLERANCE ∧
        (f.v0 - g.midpoint).dot g.normal > TOLERANCE)) := by
  unfold Face.adjacent
  simp

/-- Node index, modelling the slotmap key `NodeIndex` (keys are allocated
sequentially and never removed, so a `Nat` index into the slab is faithful). -/
abbrev NodeIndex := Nat

/-- A reference to a portal stored in the per-leaf map (`portal.rs` struct
`PortalRef`).  The `adjacent` flag pair is present in the revision of
`portals.rs` and `astar/mod.rs` in the snapshot (an older `portal.rs`
revision lacks it). -/
structure PortalRef where
  src : NodeIndex
  dst : NodeIndex
  face : Nat
  normal : Vec2
  adjacent : Bool × Bool
deriving DecidableEq, Repr

/-- A face produced by clipping, tagged with its sides, endpoint adjacency
flags and the leaves on its two sides (`portals.rs` struct `ClippedFace`). -/
structure ClippedFace where
  face : Face
  sides : Side × Side
  adjacent : Bool × Bool
  src : NodeIndex
  dst : NodeIndex
deriving DecidableEq, Repr

/-- Constructor `ClippedFace::new` (five-argument revision of portals.rs). -/
def ClippedFace.new (a b : Vec2) (sides : Side × Side) (adjacent : Bool × Bool)
    (src dst : NodeIndex) : ClippedFace :=
  { face := Face.new a b, sides := sides, adjacent := adjacent, src := src, dst := dst }

/-- Side classification of a clipped face (delegated to the inner face via
`Deref` in Rust). -/
def ClippedFace.side_of (cf : ClippedFace) (p normal : Vec2) : Side :=
  cf.face.side_of p normal

/-- Splitting a clipped face at a plane, `ClippedFace::split`: both pieces
get sides `[Front, Front]`; the new interior endpoints get `adjacent =
false`. -/
def ClippedFace.split (cf : ClippedFace) (p normal : Vec2) : ClippedFace × ClippedFace :=
  let intersection := face_intersect cf.face.v0 cf.face.v1 p normal
  (ClippedFace.new cf.face.v0 intersection.point (Side.Front, Side.Front)
      (cf.adjacent.1, false) cf.src cf.dst,
   ClippedFace.new intersection.point cf.face.v1 (Side.Front, Side.Front)
      (false, cf.adjacent.2) cf.src cf.dst)

/-- Association list update used to model `SecondaryMap::entry(..).or_default().push(..)`:
append `r` to the bucket of `k`, creating the bucket at the end when absent. -/
def assocPush (m : List (NodeIndex × List PortalRef)) (k : NodeIndex) (r : PortalRef) :
    List (NodeIndex × List PortalRef) :=
  match m with
  | [] => [(k, [r])]
  | (k2, l) :: rest => if k2 = k then (k2, l ++ [r]) :: rest else (k2, l) :: assocPush rest k r

/-- Association list read used to model `SecondaryMap::get(..).unwrap_or_default()`. -/
def assocGet (m : List (NodeIndex × List PortalRef)) (k : NodeIndex) : List PortalRef :=
  match m with
  | [] => []
  | (k2, l) :: rest => if k2 = k then l else assocGet rest k

/-- The portal store (`portals.rs` struct `Portals`): a per-leaf map of
portal references over a backing vector of faces. -/
structure Portals where
  inner : List (NodeIndex × List PortalRef)
  faces : List Face

/-- The empty portal store, `Portals::new`. -/
def Portals.empty : Portals :=
  { inner := [], faces := [] }

/-- Portal references stored for a leaf, `Portals::get` (without the face
expansion of the Rust iterator). -/
def Portals.get (P : Portals) (index : NodeIndex) : List PortalRef :=
  assocGet P.inner index

/-- Store insertion `Portals::push`.  The Rust function asserts
`portal.src != portal.dst`; the model returns `none` exactly when that
assertion would fire. -/
def Portals.push (P : Portals) (portal : ClippedFace) : Option Portals :=
  if portal.src = portal.dst then none
  else
    let face := P.faces.length
    some
      { faces := P.faces ++ [portal.face]
        inner :=
          assocPush
            (assocPush P.inner portal.src
              { dst := portal.dst, src := portal.src, adjacent := portal.adjacent,
                normal := -portal.face.normal, face := face })
            portal.dst
            { dst := portal.src, src := portal.dst, adjacent := portal.adjacent,
              normal := portal.face.normal, face := face } }

/-- Folding `Portals::push` over a list, modelling `Portals::extend` (and
therefore `Portals::generate`); `none` when any push would panic. -/
def Portals.extendAll (P : Portals) : List ClippedFace → Option Portals
  | [] => some P
  | cf :: rest => match P.push cf with
    | none => none
    | some P2 => P2.extendAll rest

theorem assocGet_push_same (m : List (NodeIndex × List PortalRef)) (k : NodeIndex)
    (r : PortalRef) : assocGet (assocPush m k r) k = assocGet m k ++ [r] := by
  induction m with
  | nil => simp [assocPush, assocGet]
  | cons hd tl ih =>
    obtain ⟨k2, l⟩ := hd
    by_cases h : k2 = k <;> simp [assocPush, assocGet, h, ih]

theorem assocGet_push_other (m : List (NodeIndex × List PortalRef)) (k k2 : NodeIndex)
    (r : PortalRef) (hne : k2 ≠ k) : assocGet (assocPush m k r) k2 = assocGet m k2 := by
  induction m with
  | nil =>
    simp only [assocPush, assocGet]
    rw [if_neg (fun hh => hne hh.symm)]
  | cons hd tl ih =>
    obtain ⟨k3, l⟩ := hd
    by_cases h : k3 = k
    · subst h
      simp only [assocPush, if_pos rfl, assocGet]
      rw [if_neg (fun hh => hne hh.symm), if_neg (fun hh => hne hh.symm)]
    · simp only [assocPush, if_neg h, assocGet]
      by_cases h2 : k3 = k2
      · rw [if_pos h2, if_pos h2]
      · rw [if_neg h2, if_neg h2]
        exact ih

/-- C4: for every `ClippedFace` accepted as a portal (the assertion
`src ≠ dst` holds), `Portals::push` stores exactly two `PortalRef` entries
in the per-leaf map: one under the src leaf pointing to the dst leaf and
one under the dst leaf pointing to the src leaf; both reference the same
index into the backing face vector (its previous length), the normal of
the src entry is the exact negation of the normal of the dst entry, and
no other leaf bucket changes. -/
theorem portals_push_symmetric (P : Portals) (cf : ClippedFace)
    (h : cf.src ≠ cf.dst) :
    ∃ P2, P.push cf = some P2 ∧
      P2.faces = P.faces ++ [cf.face] ∧
      P2.get cf.src = P.get cf.src ++
        [{ dst := cf.dst, src := cf.src, adjacent := cf.adjacent,
           normal := -cf.face.normal, face := P.faces.length }] ∧
      P2.get cf.dst = P.get cf.dst ++
        [{ dst := cf.src, src := cf.dst, adjacent := cf.adjacent,
           normal := cf.face.normal, face := P.faces.length }] ∧
      (-cf.face.normal : Vec2) = -(cf.face.normal) ∧
      ∀ i, i ≠ cf.src → i ≠ cf.dst → P2.get i = P.get i := by
  refine ⟨
    { faces := P.faces ++ [cf.face]
      inner := assocPush (assocPush P.inner cf.src
          { dst := cf.dst, src := cf.src, adjacent := cf.adjacent,
            normal := -cf.face.normal, face := P.faces.length }) cf.dst
          { dst := cf.src, src := cf.dst, adjacent := cf.adjacent,
            normal := cf.face.normal, face := P.faces.length } },
    ?_, rfl, ?_, ?_, rfl, ?_⟩
  · simp [Portals.push, h]
  · show assocGet (assocPush (assocPush _ _ _) _ _) cf.src = _
    rw [assocGet_push_other _ _ _ _ h, assocGet_push_same]
    rfl
  · show assocGet (assocPush (assocPush _ _ _) _ _) cf.dst = _
    rw [assocGet_push_same, assocGet_push_other _ _ _ _ (Ne.symm h)]
    rfl
  · intro i h1 h2
    show assocGet (assocPush (assocPush _ _ _) _ _) i = _
    rw [assocGet_push_other _ _ _ _ h2, assocGet_push_other _ _ _ _ h1]
    rfl

/-- Witness for C4 at a concrete input: an axis aligned portal face between
leaves 0 and 1 pushed into the empty store. -/
theorem portals_push_symmetric_witness :
    (ClippedFace.new ⟨0, 0⟩ ⟨2, 0⟩ (Side.Front, Side.Front) (false, false) 0 1).src ≠
      (ClippedFace.new ⟨0, 0⟩ ⟨2, 0⟩ (Side.Front, Side.Front) (false, false) 0 1).dst ∧
    ∃ P2, Portals.empty.push
        (ClippedFace.new ⟨0, 0⟩ ⟨2, 0⟩ (Side.Front, Side.Front) (false, false) 0 1) = some P2 ∧
      P2.faces = Portals.empty.faces ++
        [(ClippedFace.new ⟨0, 0⟩ ⟨2, 0⟩ (Side.Front, Side.Front) (false, false) 0 1).face] ∧
      P2.get 0 = Portals.empty.get 0 ++
        [{ dst := 1, src := 0, adjacent := (false, false),
           normal := -(ClippedFace.new ⟨0, 0⟩ ⟨2, 0⟩ (Side.Front, Side.Front) (false, false) 0 1).face.normal,
           face := Portals.empty.faces.length }] ∧
      P2.get 1 = Portals.empty.get 1 ++
        [{ dst := 0, src := 1, adjacent := (false, false),
           normal := (ClippedFace.new ⟨0, 0⟩ ⟨2, 0⟩ (Side.Front, Side.Front) (false, false) 0 1).face.normal,
           face := Portals.empty.faces.length }] ∧
      (-(ClippedFace.new ⟨0, 0⟩ ⟨2, 0⟩ (Side.Front, Side.Front) (false, false) 0 1).face.normal : Vec2) =
        -((ClippedFace.new ⟨0, 0⟩ ⟨2, 0⟩ (Side.Front, Side.Front) (false, false) 0 1).face.normal) ∧
      ∀ i, i ≠ 0 → i ≠ 1 → P2.get i = Portals.empty.get i :=
  ⟨by decide, portals_push_symmetric Portals.empty _ (by decide)⟩

/-- A node of the BSP tree (`tree/node.rs` struct `BSPNode`). -/
structure BSPNode where
  origin : Vec2
  normal : Vec2
  front : Option NodeIndex
  back : Option NodeIndex
  face : Face
  depth : Nat
  double_planar : Bool
deriving DecidableEq, Repr

/-- Accumulator of the classification loop in `BSPNode::from_faces`:
the front and back buckets, the extremal points of the splitting plane
span (min, max along the plane direction) and the double planar flag. -/
structure FaceAcc where
  front : List Face
  back : List Face
  minPt : Vec2
  minVal : ℚ
  maxPt : Vec2
  maxVal : ℚ
  double_planar : Bool
deriving DecidableEq, Repr

/-- Min and max tracking for one vertex of a coplanar face (the inner
`for v in face.vertices` loop of `BSPNode::from_faces`). -/
def coplanar_track (p dir : Vec2) (acc : FaceAcc) (v : Vec2) : FaceAcc :=
  let distance := (v - p).dot dir
  let acc2 :=
    if distance > 0 ∧ distance > acc.maxVal then
      { acc with maxPt := v, maxVal := distance }
    else acc
  if distance < 0 ∧ distance < acc2.minVal then
    { acc2 with minPt := v, minVal := distance }
  else acc2

/-- The classification loop of `BSPNode::from_faces`: every remaining face
is classified against the plane of `current` and dispatched to the front
bucket, the back bucket, the coplanar handling (span and double planar
tracking) or split into both buckets. -/
def classify_faces (current : Face) : List Face → FaceAcc → FaceAcc
  | [], acc => acc
  | face :: rest, acc =>
    let acc2 :=
      match face.side_of current.v0 current.normal with
      | Side.Front => { acc with front := acc.front ++ [face] }
      | Side.Back => { acc with back := acc.back ++ [face] }
      | Side.Coplanar =>
        let acc3 := coplanar_track current.v0 current.dir acc face.v0
        let acc4 := coplanar_track current.v0 current.dir acc3 face.v1
        { acc4 with
            double_planar := acc4.double_planar || decide (face.normal.dot current.normal < 0) }
      | Side.Intersecting =>
        let intersect := face_intersect face.v0 face.v1 current.v0 current.normal
        let ab := face.split intersect.point current.normal
        { acc with front := acc.front ++ [ab.1], back := acc.back ++ [ab.2] }
    classify_faces current rest acc2

/-- Initial accumulator of the classification loop (empty buckets, span
seeded with the two vertices of the splitter). -/
def initAcc (current : Face) : FaceAcc :=
  { front := [], back := [], minPt := current.v0,
    minVal := (current.v0 - current.v0).dot current.dir,
    maxPt := current.v1,
    maxVal := (current.v1 - current.v0).dot current.dir,
    double_planar := false }

theorem coplanar_track_front (p dir : Vec2) (acc : FaceAcc) (v : Vec2) :
    (coplanar_track p dir acc v).front = acc.front := by
  unfold coplanar_track
  dsimp only
  split_ifs <;> rfl

theorem coplanar_track_back (p dir : Vec2) (acc : FaceAcc) (v : Vec2) :
    (coplanar_track p dir acc v).back = acc.back := by
  unfold coplanar_track
  dsimp only
  split_ifs <;> rfl

theorem coplanar_track_dp (p dir : Vec2) (acc : FaceAcc) (v : Vec2) :
    (coplanar_track p dir acc v).double_planar = acc.double_planar := by
  unfold coplanar_track
  dsimp only
  split_ifs <;> rfl

theorem classify_front_len (current : Face) (fs : List Face) (acc : FaceAcc) :
    (classify_faces current fs acc).front.length ≤ acc.front.length + fs.length := by
  induction fs generalizing acc with
  | nil => simp [classify_faces]
  | cons face rest ih =>
    show (classify_faces current rest _).front.length ≤ _
    refine le_trans (ih _) ?_
    cases h : face.side_of current.v0 current.normal <;>
      simp [h, coplanar_track_front] <;> omega

theorem classify_back_len (current : Face) (fs : List Face) (acc : FaceAcc) :
    (classify_faces current fs acc).back.length ≤ acc.back.length + fs.length := by
  induction fs generalizing acc with
  | nil => simp [classify_faces]
  | cons face rest ih =>
    show (classify_faces current rest _).back.length ≤ _
    refine le_trans (ih _) ?_
    cases h : face.side_of current.v0 current.normal <;>
      simp [h, coplanar_track_back] <;> omega

/-- Recursive BSP construction, `BSPNode::from_faces`.  The slotmap is the
array, `insert` is `push`, and the returned key is the index of the pushed
node.  Children are inserted before their parent, so child indices are
strictly smaller than the parent index. -/
def from_faces : Array BSPNode → List Face → Nat → Array BSPNode × Option NodeIndex
  | nodes, [], _ => (nodes, none)
  | nodes, current :: rest, depth =>
    let acc := classify_faces current rest (initAcc current)
    let r1 := from_faces nodes acc.front (depth + 1)
    let r2 := from_faces r1.1 acc.back (depth + 1)
    let node : BSPNode :=
      { origin := current.midpoint
        face := Face.new acc.minPt acc.maxPt
        normal := current.normal
        double_planar := acc.double_planar
        front := r1.2
        back := r2.2
        depth := depth }
    (r2.1.push node, some r2.1.size)
termination_by _ faces _ => faces.length
decreasing_by
  · exact Nat.lt_succ_of_le
      (le_trans (classify_front_len current rest (initAcc current)) (by simp [initAcc]))
  · exact Nat.lt_succ_of_le
      (le_trans (classify_back_len current rest (initAcc current)) (by simp [initAcc]))

theorem classify_dp (current : Face) (fs : List Face) (acc : FaceAcc) :
    (classify_faces current fs acc).double_planar =
      (acc.double_planar ||
        fs.any (fun f =>
          decide (f.side_of current.v0 current.normal = Side.Coplanar) &&
          decide (f.normal.dot current.normal < 0))) := by
  induction fs generalizing acc with
  | nil => simp [classify_faces]
  | cons face rest ih =>
    show (classify_faces current rest _).double_planar = _
    rw [ih]
    cases h : face.side_of current.v0 current.normal <;>
      simp [h, coplanar_track_dp, Bool.or_assoc]

/-- C7: the `double_planar` flag of a node built by `BSPNode::from_faces`
is true iff some other input face handed to that recursive call classifies
Coplanar against the splitting plane of the node and has a normal whose dot
product with the node normal is negative.  The constructed node is the last
entry of the slab. -/
theorem double_planar_iff (nodes : Array BSPNode) (current : Face) (rest : List Face)
    (depth : Nat) :
    (from_faces nodes (current :: rest) depth).1.back?.map BSPNode.double_planar =
      some (decide (∃ f ∈ rest,
        f.side_of current.v0 current.normal = Side.Coplanar ∧
        f.normal.dot current.normal < 0)) := by
  rw [from_faces]
  simp only [Array.back?_push]
  rw [classify_dp]
  simp only [initAcc, Bool.false_or, Option.map_some', Option.some.injEq]
  rw [Bool.eq_iff_iff]
  simp [List.any_eq_true, decide_eq_true_eq]

/-- Exact value of `f32::MAX`, used to seed the bounds fold in
`BSPTree::new_inner` (`f32::MIN` is its negation). -/
def f32MAX : ℚ := (2 ^ 24 - 1) * 2 ^ 104

/-- The BSP tree (`tree/mod.rs` struct `BSPTree`): node slab, root index and
scene bounds `l`, `r`. -/
structure BSPTree where
  nodes : Array BSPNode
  root : NodeIndex
  l : Vec2
  r : Vec2
deriving Repr

/-- Result of `BSPTree::locate` (`tree/mod.rs` struct `NodePayload`).  The
Rust struct also carries a borrowed `node`, always equal to the slab entry
at `index`. -/
structure NodePayload where
  index : NodeIndex
  covered : Bool
  depth : Vec2
deriving DecidableEq, Repr

/-- Descent loop of `BSPTree::locate`.  The two dead guards (`nodes[index]?`
missing, child index not below the current index) are unreachable on trees
produced by `from_faces`, where children always precede their parent in the
slab; on such inputs the Rust loop would not terminate or would panic, and
the guards make termination explicit. -/
def locate_aux (nodes : Array BSPNode) (point : Vec2) (index : NodeIndex) : NodePayload :=
  match nodes[index]? with
  | none => { index := index, covered := false, depth := 0 }
  | some node =>
    let rel := point - node.origin
    let d := rel.dot node.normal
    if d ≥ 0 then
      match node.front with
      | some next =>
        if _h : next < index then locate_aux nodes point next
        else { index := index, covered := false, depth := 0 }
      | none => { index := index, covered := false, depth := 0 }
    else
      match node.back with
      | some next =>
        if _h : next < index then locate_aux nodes point next
        else { index := index, covered := true, depth := d • (-node.normal) }
      | none => { index := index, covered := true, depth := d • (-node.normal) }
termination_by index

/-- Point location, `BSPTree::locate`. -/
def BSPTree.locate (t : BSPTree) (point : Vec2) : NodePayload :=
  locate_aux t.nodes point t.root

/-- Construction worker `BSPTree::new_inner`: fold the bounds over all
vertices (seeded with `f32::MAX` / `f32::MIN`), then build the root. -/
def BSPTree.new_inner (faces : List Face) : Option BSPTree :=
  let lr := faces.foldl
    (fun acc f =>
      let acc1 := (acc.1.cmin f.v0, acc.2.cmax f.v0)
      (acc1.1.cmin f.v1, acc1.2.cmax f.v1))
    (⟨f32MAX, f32MAX⟩, ⟨-f32MAX, -f32MAX⟩)
  let res := from_faces #[] faces 0
  match res.2 with
  | none => none
  | some root => some { nodes := res.1, root := root, l := lr.1, r := lr.2 }

/-- Public constructor `BSPTree::new`. -/
def BSPTree.new (faces : List Face) : Option BSPTree :=
  BSPTree.new_inner faces

/-- Outer clipping frame of the scene, `BSPTree::clipping_planes`: the four
sides of the bounding rectangle. -/
def BSPTree.clipping_planes (t : BSPTree) : List Face :=
  [ Face.new ⟨t.l.x, t.r.y⟩ t.l
  , Face.new t.l ⟨t.r.x, t.l.y⟩
  , Face.new ⟨t.r.x, t.l.y⟩ t.r
  , Face.new t.r ⟨t.l.x, t.r.y⟩ ]

theorem from_faces_spec :
    ∀ (n : Nat) (faces : List Face), faces.length ≤ n → ∀ (nodes : Array BSPNode) (depth : Nat),
      nodes.size ≤ (from_faces nodes faces depth).1.size ∧
      (∀ i : Nat, i < nodes.size → (from_faces nodes faces depth).1[i]? = nodes[i]?) ∧
      (∀ k, (from_faces nodes faces depth).2 = some k →
        nodes.size ≤ k ∧ k < (from_faces nodes faces depth).1.size) ∧
      (∀ i node, nodes.size ≤ i → (from_faces nodes faces depth).1[i]? = some node →
        (∀ j, node.front = some j → j < i) ∧ (∀ j, node.back = some j → j < i)) := by
  intro n
  induction n with
  | zero =>
    intro faces hlen nodes depth
    have hnil : faces = [] := List.eq_nil_of_length_eq_zero (Nat.le_zero.mp hlen)
    subst hnil
    rw [from_faces]
    refine ⟨le_refl _, fun i _ => rfl, by simp, fun i node hge hsome => ?_⟩
    rw [Array.getElem?_eq_none_iff.mpr hge] at hsome
    exact absurd hsome (by simp)
  | succ n ih =>
    intro faces hlen nodes depth
    match faces with
    | [] =>
      rw [from_faces]
      refine ⟨le_refl _, fun i _ => rfl, by simp, fun i node hge hsome => ?_⟩
      rw [Array.getElem?_eq_none_iff.mpr hge] at hsome
      exact absurd hsome (by simp)
    | current :: rest =>
      have hrest : rest.length ≤ n := by
        simpa using Nat.succ_le_succ_iff.mp (by simpa using hlen)
      have hfl : (classify_faces current rest (initAcc current)).front.length ≤ n :=
        le_trans (by simpa [initAcc] using classify_front_len current rest (initAcc current))
          hrest
      have hbl : (classify_faces current rest (initAcc current)).back.length ≤ n :=
        le_trans (by simpa [initAcc] using classify_back_len current rest (initAcc current))
          hrest
      simp only [from_faces]
      set acc := classify_faces current rest (initAcc current) with hacc
      obtain ⟨s1, p1, k1, w1⟩ := ih acc.front hfl nodes (depth + 1)
      set r1 := from_faces nodes acc.front (depth + 1) with hr1
      obtain ⟨s2, p2, k2, w2⟩ := ih acc.back hbl r1.1 (depth + 1)
      set r2 := from_faces r1.1 acc.back (depth + 1) with hr2
      refine ⟨?_, ?_, ?_, ?_⟩
      · rw [Array.size_push]
        exact le_trans (le_trans s1 s2) (Nat.le_succ _)
      · intro i hi
        rw [Array.getElem?_push,
          if_neg (Nat.ne_of_lt (lt_of_lt_of_le hi (le_trans s1 s2)))]
        rw [p2 i (lt_of_lt_of_le hi s1)]
        exact p1 i hi
      · intro k hk
        rw [Option.some.injEq] at hk
        subst hk
        rw [Array.size_push]
        exact ⟨le_trans s1 s2, Nat.lt_succ_self _⟩
      · intro i node hge hsome
        rw [Array.getElem?_push] at hsome
        by_cases hi : i = r2.1.size
        · rw [if_pos hi] at hsome
          rw [Option.some.injEq] at hsome
          subst hsome
          constructor
          · intro j hj
            rw [hi]
            exact lt_of_lt_of_le (k1 j hj).2 s2
          · intro j hj
            rw [hi]
            exact (k2 j hj).2
        · rw [if_neg hi] at hsome
          by_cases hi2 : i < r1.1.size
          · rw [p2 i hi2] at hsome
            exact w1 i node hge hsome
          · exact w2 i node (Nat.le_of_not_lt hi2) hsome

/-- Specification predicate written from the words of claim C2: a descent
from index `i` reaches `leaf` with flags `covered` and vector `push`, going
front when `d = (q − origin)·normal ≥ 0` (recording covered = false) and
back when `d < 0` (recording covered = true and `push = (−normal)·d`);
when the chosen child is absent the current handle is returned with the
flag and push vector of that last step (push zero when not covered). -/
inductive DescendsTo (nodes : Array BSPNode) (q : Vec2) :
    NodeIndex → NodeIndex → Bool → Vec2 → Prop where
  | frontStep (i : NodeIndex) (node : BSPNode) (j leaf : NodeIndex)
      (covered : Bool) (push : Vec2) :
      nodes[i]? = some node →
      (q - node.origin).dot node.normal ≥ 0 →
      node.front = some j →
      DescendsTo nodes q j leaf covered push →
      DescendsTo nodes q i leaf covered push
  | backStep (i : NodeIndex) (node : BSPNode) (j leaf : NodeIndex)
      (covered : Bool) (push : Vec2) :
      nodes[i]? = some node →
      (q - node.origin).dot node.normal < 0 →
      node.back = some j →
      DescendsTo nodes q j leaf covered push →
      DescendsTo nodes q i leaf covered push
  | frontLeaf (i : NodeIndex) (node : BSPNode) :
      nodes[i]? = some node →
      (q - node.origin).dot node.normal ≥ 0 →
      node.front = none →
      DescendsTo nodes q i i false 0
  | backLeaf (i : NodeIndex) (node : BSPNode) :
      nodes[i]? = some node →
      (q - node.origin).dot node.normal < 0 →
      node.back = none →
      DescendsTo nodes q i i true
        (((q - node.origin).dot node.normal) • (-node.normal))

theorem locate_aux_descends (nodes : Array BSPNode)
    (hwf : ∀ (i : Nat) (node : BSPNode), nodes[i]? = some node →
      (∀ j, node.front = some j → j < i) ∧ (∀ j, node.back = some j → j < i))
    (q : Vec2) :
    ∀ (index : Nat) (node : BSPNode), nodes[index]? = some node →
      DescendsTo nodes q index (locate_aux nodes q index).index
        (locate_aux nodes q index).covered (locate_aux nodes q index).depth := by
  intro index
  induction index using Nat.strongRecOn with
  | ind index ih =>
    intro node hsome
    rw [locate_aux, hsome]
    dsimp only
    split_ifs with hd
    · cases hf : node.front with
      | some next =>
        have hlt : next < index := (hwf index node hsome).1 next hf
        have hidx : index < nodes.size := (Array.getElem?_eq_some_iff.mp hsome).1
        have hnlt : next < nodes.size := lt_trans hlt hidx
        have hnext : nodes[next]? = some nodes[next] :=
          Array.getElem?_eq_some_iff.mpr ⟨hnlt, rfl⟩
        dsimp only
        rw [dif_pos hlt]
        exact DescendsTo.frontStep index node next _ _ _ hsome hd hf
          (ih next hlt nodes[next] hnext)
      | none =>
        exact DescendsTo.frontLeaf index node hsome hd hf
    · have hdlt : (q - node.origin).dot node.normal < 0 := not_le.mp hd
      cases hb : node.back with
      | some next =>
        have hlt : next < index := (hwf index node hsome).2 next hb
        have hidx : index < nodes.size := (Array.getElem?_eq_some_iff.mp hsome).1
        have hnlt : next < nodes.size := lt_trans hlt hidx
        have hnext : nodes[next]? = some nodes[next] :=
          Array.getElem?_eq_some_iff.mpr ⟨hnlt, rfl⟩
        dsimp only
        rw [dif_pos hlt]
        exact DescendsTo.backStep index node next _ _ _ hsome hdlt hb
          (ih next hlt nodes[next] hnext)
      | none =>
        exact DescendsTo.backLeaf index node hsome hdlt hb

theorem new_some_parts (faces : List Face) (t : BSPTree) (ht : BSPTree.new faces = some t) :
    t.nodes = (from_faces #[] faces 0).1 ∧
    (from_faces #[] faces 0).2 = some t.root := by
  unfold BSPTree.new BSPTree.new_inner at ht
  dsimp only at ht
  revert ht
  cases hres : (from_faces #[] faces 0).2 with
  | none => intro ht; exact absurd ht (by simp)
  | some root =>
    intro ht
    rw [Option.some.injEq] at ht
    subst ht
    exact ⟨rfl, rfl⟩

theorem new_tree_wf (faces : List Face) (t : BSPTree) (ht : BSPTree.new faces = some t) :
    (∀ (i : Nat) (node : BSPNode), t.nodes[i]? = some node →
      (∀ j, node.front = some j → j < i) ∧ (∀ j, node.back = some j → j < i)) ∧
    t.root < t.nodes.size := by
  obtain ⟨hn, hr⟩ := new_some_parts faces t ht
  obtain ⟨-, -, hk, hw⟩ := from_faces_spec faces.length faces (le_refl _) #[] 0
  constructor
  · intro i node hsome
    rw [hn] at hsome
    exact hw i node (Nat.zero_le i) hsome
  · rw [hn]
    exact (hk t.root hr).2

/-- C2: on every tree built from a face list, `locate` performs exactly the
descent described by the claim: at each node it computes
`d = (q − origin)·normal`, goes front when `d ≥ 0` (covered = false) and
back when `d < 0` (covered = true, push_out = `−normal·d`), and when the
chosen child is absent it returns the current handle together with the
covered flag and push_out of that last step (zero when not covered).
Moreover `−normal·d` has squared length `d·d` whenever the node normal is
unit, i.e. the push_out vector has length `|d|`. -/
theorem locate_follows_descent (faces : List Face) (t : BSPTree) (q : Vec2)
    (ht : BSPTree.new faces = some t) :
    DescendsTo t.nodes q t.root (t.locate q).index (t.locate q).covered
      ((t.locate q).depth) ∧
    (∀ (d : ℚ) (n : Vec2), n.length_squared = 1 → (d • (-n)).length_squared = d * d) := by
  constructor
  · obtain ⟨hwf, hroot⟩ := new_tree_wf faces t ht
    have hsome : t.nodes[t.root]? = some t.nodes[t.root] :=
      Array.getElem?_eq_some_iff.mpr ⟨hroot, rfl⟩
    exact locate_aux_descends t.nodes hwf q t.root t.nodes[t.root] hsome
  · intro d n hn
    have : (d * -n.x) * (d * -n.x) + (d * -n.y) * (d * -n.y) =
        d * d * (n.x * n.x + n.y * n.y) := by ring
    simp only [Vec2.length_squared] at hn ⊢
    show (d * -n.x) * (d * -n.x) + (d * -n.y) * (d * -n.y) = d * d
    rw [this, hn, mul_one]

theorem new_cons_some (f : Face) (fs : List Face) :
    ∃ t, BSPTree.new (f :: fs) = some t := by
  unfold BSPTree.new BSPTree.new_inner
  rw [from_faces]
  exact ⟨_, rfl⟩

/-- Witness for C2 at a concrete input: the tree of a single horizontal
face, queried from above the wall. -/
theorem locate_follows_descent_witness :
    ∃ t, BSPTree.new [Face.new ⟨0, 0⟩ ⟨10, 0⟩] = some t ∧
      (DescendsTo t.nodes ⟨5, 5⟩ t.root ((t.locate ⟨5, 5⟩).index)
          ((t.locate ⟨5, 5⟩).covered) ((t.locate ⟨5, 5⟩).depth) ∧
       (∀ (d : ℚ) (n : Vec2), n.length_squared = 1 →
          (d • (-n)).length_squared = d * d)) := by
  obtain ⟨t, ht⟩ := new_cons_some (Face.new ⟨0, 0⟩ ⟨10, 0⟩) []
  exact ⟨t, ht, locate_follows_descent [Face.new ⟨0, 0⟩ ⟨10, 0⟩] t ⟨5, 5⟩ ht⟩

/-- Constructor revision of `ClippedFace::new` used by `node.rs` (four
arguments, no adjacency flags; the endpoint adjacency pair of the newer
portals.rs revision is absent there and is modelled as `(false, false)`). -/
def ClippedFace.new4 (a b : Vec2) (sides : Side × Side) (src dst : NodeIndex) : ClippedFace :=
  { face := Face.new a b, sides := sides, adjacent := (false, false), src := src, dst := dst }

/-- State of the clipping-plane scan in `BSPNode::generate_portals`. -/
structure ScanState where
  min : Intersect
  min_side : Side
  max : Intersect
  max_side : Side
deriving DecidableEq, Repr

/-- The side recorded for a bounding clipping plane in
`BSPNode::generate_portals`: Back for a double planar node, otherwise Front
when the plane base point is in front of the node origin or the plane is
not adjacent to the node face, otherwise Back. -/
def plane_side (node : BSPNode) (val : Face) : Side :=
  if node.double_planar then Side.Back
  else if (val.v0 - node.origin).dot val.normal > 0 ∨ val.adjacent node.face = false then
    Side.Front
  else Side.Back

/-- One step of the clipping-plane scan of `BSPNode::generate_portals`.
The non-finite-distance guard of the Rust code (division by zero producing
inf or NaN) is modelled by testing the denominator. -/
def scan_step (node : BSPNode) (dirv : Vec2) (st : ScanState) (val : Face) : ScanState :=
  if dirv.dot val.normal = 0 then st
  else
    let intersect := face_intersect_dir node.origin dirv val.v0 val.normal
    let side := plane_side node val
    let st1 :=
      if intersect.distance > 0 ∧ intersect.distance < st.max.distance then
        { st with max := intersect, max_side := side }
      else st
    if intersect.distance < 0 ∧ |intersect.distance| < |st1.min.distance| then
      { st1 with min := intersect, min_side := side }
    else st1

/-- The full clipping-plane scan of `BSPNode::generate_portals`: both ends
seeded with distance `f32::MAX`, sides seeded Coplanar. -/
def portal_scan (node : BSPNode) (cps : List Face) : ScanState :=
  let dirv : Vec2 := ⟨node.normal.y, -node.normal.x⟩
  cps.foldl (scan_step node dirv)
    { min := ⟨0, f32MAX⟩, min_side := Side.Coplanar,
      max := ⟨0, f32MAX⟩, max_side := Side.Coplanar }

/-- The bounded segment of the node splitting line,
`Face::new([max.point, min.point])` in `BSPNode::generate_portals`. -/
def candidate_face (node : BSPNode) (cps : List Face) : Face :=
  Face.new (portal_scan node cps).max.point (portal_scan node cps).min.point

/-- The candidate `ClippedFace` handed to clipping by
`BSPNode::generate_portals`. -/
def portal_candidate (node : BSPNode) (index : NodeIndex) (cps : List Face) : ClippedFace :=
  ClippedFace.new4 (candidate_face node cps).v0 (candidate_face node cps).v1
    ((portal_scan node cps).max_side, (portal_scan node cps).min_side) index index

/-- Modelled from the spec: `ClippedFace::split_nondestructive` is absent
from the snapshot; per the spec the Intersecting case of the clip splits
the face at the node plane into a front half and a back half preserving
normal direction, and the clip then asserts that the first half classifies
Front and the second Back.  The split present in the snapshot portals.rs
gives both halves side tags `[Front, Front]` and clears the adjacency of
the new interior endpoint but does not order the halves; the variant is
modelled as that split with its halves ordered front first, with the same
endpoint side test as `Face::split`. -/
def ClippedFace.split_nondestructive (cf : ClippedFace) (p normal : Vec2) :
    ClippedFace × ClippedFace :=
  let intersection := face_intersect cf.face.v0 cf.face.v1 p normal
  let first := ClippedFace.new cf.face.v0 intersection.point (Side.Front, Side.Front)
      (cf.adjacent.1, false) cf.src cf.dst
  let second := ClippedFace.new intersection.point cf.face.v1 (Side.Front, Side.Front)
      (false, cf.adjacent.2) cf.src cf.dst
  if (cf.face.v0 - p).dot normal ≥ -TOLERANCE then (first, second) else (second, first)

/-- Modelled from the spec: node.rs calls a three-argument `ClippedFace::split`
with the double planar flag, while the snapshot portals.rs only has a
two-argument one; per the spec the Intersecting case splits the face at the
plane into ordered front and back halves, and the spec describes no effect
of the flag on the split, so the flag is modelled as having no effect. -/
def ClippedFace.split3 (cf : ClippedFace) (p normal : Vec2) (_dp : Bool) :
    ClippedFace × ClippedFace :=
  cf.split_nondestructive p normal

/-- Modelled from the spec: `Face::contains` (called on the node face with
a clipped sub-face in the publish filter) is absent from the snapshot
shape.rs; per spec section 4.4 step 5 the sub-face is suppressed when it
overlaps the walls lying on the node plane, so it is modelled by the
overlap test. -/
def Face.contains (f : Face) (other : Face) : Bool :=
  f.overlaps other

/-- Weight of a side classification in the termination measure of the
clipping recursion (the Intersecting case re-dispatches at the same node
once per half). -/
def side_weight : Side → Nat
  | Side.Intersecting => 1
  | _ => 0

theorem side_weight_lt_two (s : Side) : side_weight s < 2 := by
  cases s <;> simp [side_weight]

theorem clip_measure_lt {a b : Nat} (h : a < b) : 3 * a + 2 < 3 * b + 0 := by
  omega

mutual

/-- Clipping of a face by the tree, `BSPNode::clip`: endpoint-touch side
overrides, then dispatch.  The `nodes[index]?` miss and the unguarded child
indices are unreachable on slabs built by `from_faces` (children precede
parents); the guards make the Rust recursion termination explicit. -/
def clip (index : Nat) (nodes : Array BSPNode) (portal : ClippedFace)
    (root_side : Side) : List ClippedFace :=
  match nodes[index]? with
  | none => []
  | some node =>
    let side := portal.side_of node.origin node.normal
    let a := (portal.face.v0 - node.origin).dot node.normal
    let b := (portal.face.v1 - node.origin).dot node.normal
    let relative_side := if node.double_planar then Side.Back else side
    let portal2 :=
      if |a| < TOLERANCE then { portal with sides := (relative_side, portal.sides.2) }
      else if |b| < TOLERANCE then { portal with sides := (portal.sides.1, relative_side) }
      else portal
    clip_new index nodes portal2 side root_side
termination_by 3 * index + 2
decreasing_by
  simp_wf
  exact side_weight_lt_two _

/-- Dispatch worker of the clipping recursion, `BSPNode::clip_new`. -/
def clip_new (index : Nat) (nodes : Array BSPNode) (portal : ClippedFace)
    (side : Side) (root_side : Side) : List ClippedFace :=
  match nodes[index]? with
  | none => []
  | some node =>
    match side, node.front, node.back with
    | Side.Coplanar, some front, some back =>
      (if hlt : front < index then clip front nodes portal Side.Front else []).flatMap
        (fun val => if hlt : back < index then clip back nodes val Side.Back else [])
    | Side.Coplanar, some front, none =>
      if hlt : front < index then clip front nodes portal Side.Front else []
    | Side.Coplanar, none, some back =>
      if hlt : back < index then clip back nodes portal Side.Back else []
    | Side.Front, some front, _ =>
      if hlt : front < index then clip front nodes portal root_side else []
    | Side.Back, _, some back =>
      if hlt : back < index then clip back nodes portal root_side else []
    | Side.Intersecting, _, _ =>
      let fb :=
        if node.face.adjacent portal.face then
          portal.split3 node.origin node.normal node.double_planar
        else portal.split_nondestructive node.origin node.normal
      clip_new index nodes fb.1 Side.Front root_side ++
        clip_new index nodes fb.2 Side.Back root_side
    | _, _, _ =>
      if root_side = Side.Back then [{ portal with dst := index }]
      else [{ portal with src := index }]
termination_by 3 * index + side_weight side
decreasing_by
  all_goals simp_wf
  all_goals simp only [side_weight]
  all_goals first
    | exact clip_measure_lt hlt
    | decide

end

/-- Publish filter of `BSPNode::generate_portals`: keep a clipped sub-face
iff its two leaves differ, both side tags are Front and it does not lie on
the walls of the node plane. -/
def publish_filter (node : BSPNode) (val : ClippedFace) : Bool :=
  decide (val.src ≠ val.dst) && decide (val.sides = (Side.Front, Side.Front)) &&
    !(node.face.contains val.face)

/-- Portal generation over a subtree, `BSPNode::generate_portals`: emit the
filtered clip results of the candidate, then recurse into the children with
the candidate face appended to the clipping planes. -/
def generate_portals_aux (index : Nat) (nodes : Array BSPNode) (cps : List Face) :
    List ClippedFace :=
  match nodes[index]? with
  | none => []
  | some node =>
    let portal := portal_candidate node index cps
    let emitted := (clip index nodes portal Side.Front).filter (publish_filter node)
    let cps2 := cps ++ [candidate_face node cps]
    let frontPart :=
      match node.front with
      | some child => if hlt : child < index then generate_portals_aux child nodes cps2 else []
      | none => []
    let backPart :=
      match node.back with
      | some child => if hlt : child < index then generate_portals_aux child nodes cps2 else []
      | none => []
    emitted ++ frontPart ++ backPart
termination_by index

/-- Tree-level portal generation, `BSPTree::generate_portals`. -/
def BSPTree.generate_portals (t : BSPTree) : List ClippedFace :=
  generate_portals_aux t.root t.nodes t.clipping_planes

/-- Store-level generation `Portals::generate` (extend with all generated
clipped faces); `none` when some push assertion would fire. -/
def Portals.generate (P : Portals) (t : BSPTree) : Option Portals :=
  P.extendAll t.generate_portals

theorem Vec2_sub_def (a b : Vec2) : a - b = ⟨a.x - b.x, a.y - b.y⟩ := rfl

theorem Vec2_add_def (a b : Vec2) : a + b = ⟨a.x + b.x, a.y + b.y⟩ := rfl

theorem Vec2_neg_def (a : Vec2) : -a = ⟨-a.x, -a.y⟩ := rfl

theorem Vec2_smul_def (c : ℚ) (v : Vec2) : c • v = ⟨c * v.x, c * v.y⟩ := rfl

theorem Vec2_zero_def : (0 : Vec2) = ⟨0, 0⟩ := rfl

theorem scan_fold_sides (node : BSPNode) (dirv : Vec2) :
    ∀ (cps : List Face) (st : ScanState),
      ((cps.foldl (scan_step node dirv) st).max_side = st.max_side ∨
        ∃ val ∈ cps, (cps.foldl (scan_step node dirv) st).max_side = plane_side node val) ∧
      ((cps.foldl (scan_step node dirv) st).min_side = st.min_side ∨
        ∃ val ∈ cps, (cps.foldl (scan_step node dirv) st).min_side = plane_side node val) := by
  intro cps
  induction cps with
  | nil => simp
  | cons val rest ih =>
    intro st
    simp only [List.foldl_cons]
    obtain ⟨hmax, hmin⟩ := ih (scan_step node dirv st val)
    have hstep_max : (scan_step node dirv st val).max_side = st.max_side ∨
        (scan_step node dirv st val).max_side = plane_side node val := by
      unfold scan_step
      dsimp only
      split_ifs <;> simp
    have hstep_min : (scan_step node dirv st val).min_side = st.min_side ∨
        (scan_step node dirv st val).min_side = plane_side node val := by
      unfold scan_step
      dsimp only
      split_ifs <;> simp
    constructor
    · rcases hmax with h | h
      · rcases hstep_max with h2 | h2
        · left
          rw [h, h2]
        · right
          exact ⟨val, by simp, by rw [h, h2]⟩
      · right
        obtain ⟨v, hv, he⟩ := h
        exact ⟨v, by simp [hv], he⟩
    · rcases hmin with h | h
      · rcases hstep_min with h2 | h2
        · left
          rw [h, h2]
        · right
          exact ⟨val, by simp, by rw [h, h2]⟩
      · right
        obtain ⟨v, hv, he⟩ := h
        exact ⟨v, by simp [hv], he⟩

/-- C6 (amended): the candidate ClippedFace handed to clipping for a node
has as vertices the two points where the node splitting line is bounded by
the clipping planes (`max.point` then `min.point` of the scan) and has
src = dst = the node handle; its two side tags are not constantly Front:
each is either Coplanar (no bounding plane found for that end) or the side
recorded for the bounding plane, which is Back whenever the node is double
planar, and Front exactly when the node is not double planar and the plane
base lies in front of the node origin or the plane is not adjacent to the
node face. -/
theorem portal_candidate_shape (node : BSPNode) (index : NodeIndex) (cps : List Face) :
    (portal_candidate node index cps).src = index ∧
    (portal_candidate node index cps).dst = index ∧
    (portal_candidate node index cps).face.v0 = (portal_scan node cps).max.point ∧
    (portal_candidate node index cps).face.v1 = (portal_scan node cps).min.point ∧
    (portal_candidate node index cps).sides =
      ((portal_scan node cps).max_side, (portal_scan node cps).min_side) ∧
    ((portal_scan node cps).max_side = Side.Coplanar ∨
      ∃ val ∈ cps, (portal_scan node cps).max_side = plane_side node val) ∧
    ((portal_scan node cps).min_side = Side.Coplanar ∨
      ∃ val ∈ cps, (portal_scan node cps).min_side = plane_side node val) ∧
    (node.double_planar = true → ∀ val : Face, plane_side node val = Side.Back) := by
  refine ⟨rfl, rfl, rfl, rfl, rfl, ?_, ?_, ?_⟩
  · exact (scan_fold_sides node ⟨node.normal.y, -node.normal.x⟩ cps _).1
  · exact (scan_fold_sides node ⟨node.normal.y, -node.normal.x⟩ cps _).2
  · intro hdp val
    simp [plane_side, hdp]

/-- Counterexample to C6 as stated: for a double planar node bounded by two
vertical clipping planes, the candidate handed to clipping carries side
tags `[Back, Back]`, not `[Front, Front]`. -/
theorem portal_candidate_sides_counterexample :
    (portal_candidate
        { origin := ⟨0, 0⟩, normal := ⟨0, 1⟩, front := none, back := none,
          face := { normal := ⟨0, 1⟩, v0 := ⟨0, 0⟩, v1 := ⟨1, 0⟩ }, depth := 0,
          double_planar := true } 0
        [{ normal := ⟨1, 0⟩, v0 := ⟨5, -10⟩, v1 := ⟨5, 10⟩ },
         { normal := ⟨1, 0⟩, v0 := ⟨-5, -10⟩, v1 := ⟨-5, 10⟩ }]).sides =
      (Side.Back, Side.Back) ∧
    (Side.Back, Side.Back) ≠ (Side.Front, Side.Front) := by
  constructor
  · simp only [portal_candidate, ClippedFace.new4, portal_scan, List.foldl_cons,
      List.foldl_nil]
    norm_num [scan_step, plane_side, face_intersect_dir, Vec2.dot, f32MAX,
      Vec2_sub_def, Vec2_add_def, Vec2_smul_def, Vec2_zero_def, Vec2_neg_def]
  · decide

theorem generate_portals_aux_src_ne_dst :
    ∀ (index : Nat) (nodes : Array BSPNode) (cps : List Face),
      ∀ cf ∈ generate_portals_aux index nodes cps, cf.src ≠ cf.dst := by
  intro index
  induction index using Nat.strongRecOn with
  | ind index ih =>
    intro nodes cps cf hcf
    rw [generate_portals_aux] at hcf
    revert hcf
    cases hnn : nodes[index]? with
    | none =>
      intro hcf
      exact absurd hcf (by simp)
    | some node =>
      intro hcf
      dsimp only at hcf
      rcases List.mem_append.mp hcf with hcf2 | hback
      · rcases List.mem_append.mp hcf2 with hem | hfront
        · have hp := (List.mem_filter.mp hem).2
          unfold publish_filter at hp
          rw [Bool.and_eq_true, Bool.and_eq_true] at hp
          exact of_decide_eq_true hp.1.1
        · revert hfront
          cases hf : node.front with
          | none =>
            intro hfront
            exact absurd hfront (by simp)
          | some child =>
            dsimp only
            by_cases hc : child < index
            · rw [dif_pos hc]
              intro hfront
              exact ih child hc nodes _ cf hfront
            · rw [dif_neg hc]
              intro hfront
              exact absurd hfront (by simp)
      · revert hback
        cases hb : node.back with
        | none =>
          intro hback
          exact absurd hback (by simp)
        | some child =>
          dsimp only
          by_cases hc : child < index
          · rw [dif_pos hc]
            intro hback
            exact ih child hc nodes _ cf hback
          · rw [dif_neg hc]
            intro hback
            exact absurd hback (by simp)

theorem extendAll_isSome (l : List ClippedFace) :
    ∀ P : Portals, (∀ cf ∈ l, cf.src ≠ cf.dst) → (P.extendAll l).isSome = true := by
  induction l with
  | nil =>
    intro P _
    rfl
  | cons cf rest ih =>
    intro P hall
    have hne : cf.src ≠ cf.dst := hall cf (by simp)
    rw [Portals.extendAll]
    unfold Portals.push
    rw [if_neg hne]
    exact ih _ (fun x hx => hall x (by simp [hx]))

/-- C10: every ClippedFace emitted by `BSPTree::generate_portals` has
`src ≠ dst` (the publish filter discards clipped faces whose src equals
dst); consequently the assertion `assert_ne!(portal.src, portal.dst)` in
`Portals::push` never fires when the portal store is extended with the
generated portals of a tree, from any starting store. -/
theorem generate_portals_no_push_panic (t : BSPTree) (P : Portals) :
    (∀ cf ∈ t.generate_portals, cf.src ≠ cf.dst) ∧
    (P.extendAll t.generate_portals).isSome = true ∧
    (Portals.generate P t).isSome = true := by
  have hall := generate_portals_aux_src_ne_dst t.root t.nodes t.clipping_planes
  refine ⟨hall, extendAll_isSome _ P hall, extendAll_isSome _ P hall⟩

/-- The null slotmap key `NodeIndex::null()` (sentinel index, used only by
`Path::euclidian`); modelled as the `u32::MAX` slot of the slotmap key. -/
def nullIndex : NodeIndex := 2 ^ 32 - 1

/-- A way point of a path (`astar/mod.rs` struct `WayPoint`). -/
structure WayPoint where
  point : Vec2
  node : NodeIndex
  portal : Option PortalRef
deriving DecidableEq, Repr

/-- A path is its ordered way points (`astar/mod.rs` struct `Path` wraps a
small vector of `WayPoint`; the name `Path` itself is taken by Mathlib). -/
def RPath := List WayPoint

/-- Straight-line path `Path::euclidian`. -/
def RPath.euclidian (start endp : Vec2) : RPath :=
  [⟨start, nullIndex, none⟩, ⟨endp, nullIndex, none⟩]

/-- Search parameters (`astar/mod.rs` struct `SearchInfo`). -/
structure SearchInfo where
  agent_radius : ℚ
deriving DecidableEq, Repr

/-- An open-set entry (`astar/mod.rs` struct `Backtrace`).  The Rust struct
stores a borrowed `Portal` view (face plus reference); only the reference
is ever read back, so the model stores the `PortalRef`. -/
structure Backtrace where
  node : NodeIndex
  point : Vec2
  portal : Option PortalRef
  prev : Option NodeIndex
  start_cost : ℚ
  total_cost : ℚ
deriving Repr

/-- Initial entry `Backtrace::start`. -/
def Backtrace.start (node : NodeIndex) (point : Vec2) (heuristic : ℚ) : Backtrace :=
  { node := node, point := point, portal := none, prev := none,
    start_cost := 0, total_cost := heuristic }

/-- Successor entry `Backtrace::new`. -/
def Backtrace.mkNew (portal : PortalRef) (point : Vec2) (prev : Backtrace)
    (heuristic : ℚ) : Backtrace :=
  let start_cost := prev.start_cost + point.distance prev.point
  { node := portal.dst, portal := some portal, point := point,
    prev := some prev.node, start_cost := start_cost,
    total_cost := start_cost + heuristic }

/-- Default face for an out-of-range portal-store index (Rust indexing
would panic; unreachable for references produced by `Portals::push`). -/
def defFace : Face :=
  { normal := 0, v0 := 0, v1 := 0 }

/-- Face geometry of a portal reference, `Portals::from_ref` /
`Portal::face`. -/
def Portals.face_of (P : Portals) (r : PortalRef) : Face :=
  P.faces.getD r.face defFace

/-- Margin shrink of a portal face, `Portal::apply_margin`: both ends moved
inward along the face direction. -/
def apply_margin (face : Face) (margin : ℚ) : Vec2 × Vec2 :=
  let dir := face.dir
  (face.v0 + margin • dir, face.v1 - margin • dir)

/-- Crossing-point clamp, `Portal::clip`: intersect the segment from
`start` toward `endp` with the shrunk portal and clamp to its ends. -/
def portal_clip (face : Face) (start endp : Vec2) (margin : ℚ) : Vec2 :=
  let lr := apply_margin face margin
  let p := face_intersect lr.1 lr.2 start ((endp - start).perp)
  if p.distance < 0 then lr.1
  else if p.distance > 1 then lr.2
  else p.point

/-- Strict-interior intersection, `Portal::try_clip`. -/
def portal_try_clip (face : Face) (start endp : Vec2) (margin : ℚ) : Option Vec2 :=
  let lr := apply_margin face margin
  let p := face_intersect lr.1 lr.2 start ((endp - start).perp)
  if p.distance > 0 ∧ p.distance < 1 then some p.point else none

/-- One portal of the A* expansion loop (the body of the `filter_map` in
`astar`, before the backtrace-map relaxation): the skip test, then the
crossing point and the candidate backtrace.  After the skip test the Rust
code asserts `portal.src() == current.node`, an invariant of stores built
by `Portals::push` (not modelled: it does not affect the produced value). -/
def expand_portal (P : Portals) (agent_radius : ℚ) (endp : Vec2)
    (h : Vec2 → Vec2 → ℚ) (closed : List NodeIndex) (current : Backtrace)
    (portal : PortalRef) : Option Backtrace :=
  let face := P.face_of portal
  let lr := apply_margin face agent_radius
  if portal.dst = current.node ∨ lr.1.distance lr.2 < 2 * agent_radius ∨
      portal.dst ∈ closed then
    none
  else
    let end_rel := endp - current.point
    let p1 := lr.1
    let p2 := lr.2
    let p1_dist := h p1 endp
    let p2_dist := h p2 endp
    let p :=
      if portal.normal.dot end_rel > 0 then
        portal_clip face current.point endp agent_radius
      else if p1_dist < p2_dist then p1
      else p2
    some (Backtrace.mkNew portal p current (h p endp))

/-- Backtrace-map relaxation of one candidate (the `match
backtraces.entry(..)` block): keep and record the candidate unless an entry
with a lower or equal total cost already exists for its node. -/
def relax (bts : NodeIndex → Option Backtrace) (bt : Backtrace) :
    Option (NodeIndex → Option Backtrace) :=
  match bts bt.node with
  | some old =>
    if old.total_cost > bt.total_cost then
      some (fun i => if i = bt.node then some bt else bts i)
    else none
  | none => some (fun i => if i = bt.node then some bt else bts i)

/-- Sequential expansion of all portals of the current node (the
`filter_map` over `portals.get(current.node)` followed by
`open.extend`): later portals relax against the map updates of earlier
ones, and the surviving candidates are collected in order. -/
def expand_all (P : Portals) (agent_radius : ℚ) (endp : Vec2)
    (h : Vec2 → Vec2 → ℚ) (closed : List NodeIndex) (current : Backtrace) :
    List PortalRef → (NodeIndex → Option Backtrace) →
      (NodeIndex → Option Backtrace) × List Backtrace
  | [], bts => (bts, [])
  | pr :: rest, bts =>
    match expand_portal P agent_radius endp h closed current pr with
    | none => expand_all P agent_radius endp h closed current rest bts
    | some cand =>
      match relax bts cand with
      | none => expand_all P agent_radius endp h closed current rest bts
      | some bts2 =>
        let r := expand_all P agent_radius endp h closed current rest bts2
        (r.1, cand :: r.2)

/-- Pop of the binary heap: the entry with the smallest total cost (Rust
leaves the order among equal costs unspecified; the model takes the
earliest such entry). -/
def popMin : List Backtrace → Option (Backtrace × List Backtrace)
  | [] => none
  | b :: rest =>
    match popMin rest with
    | none => some (b, [])
    | some (m, rest2) =>
      if b.total_cost ≤ m.total_cost then some (b, rest) else some (m, b :: rest2)

/-- Path reconstruction loop of `backtrace` in astar/mod.rs: walk the
`prev` chain from the end leaf, appending points that do not duplicate the
previous one within squared tolerance.  The fuel bounds the chain walk (the
Rust loop indexes the map directly and would panic on a missing entry and
diverge on a cyclic chain; neither occurs in chains written by the search
loop). -/
def backtrace_loop (bts : NodeIndex → Option Backtrace) :
    Nat → NodeIndex → Vec2 → List WayPoint → List WayPoint
  | 0, _, _, acc => acc
  | fuel + 1, current, prev, acc =>
    match bts current with
    | none => acc
    | some node =>
      let acc2 :=
        if acc.length < 2 ∨ prev.distance_squared node.point > TOLERANCE then
          acc ++ [⟨node.point, node.node, node.portal⟩]
        else acc
      match node.prev with
      | some p => backtrace_loop bts fuel p node.point acc2
      | none => acc2

/-- Path reconstruction, `backtrace` in astar/mod.rs: seed with the end
way point, walk the chain, reverse into start-to-end order. -/
def backtrace_build (endp : Vec2) (current : NodeIndex)
    (bts : NodeIndex → Option Backtrace) (fuel : Nat) : List WayPoint :=
  (backtrace_loop bts fuel current endp [⟨endp, current, none⟩]).reverse

/-- String pulling, `shorten` in astar/mod.rs.  The recursion into the tail
is structural; the retry after a successful move is bounded by fuel (the
Rust retry loop has no structural bound).  The Rust function also receives
the tree, which it never reads. -/
def shorten (P : Portals) (agent_radius : ℚ) :
    Nat → List WayPoint → List WayPoint × Bool
  | fuel, a :: b :: c :: rest =>
    match b.portal with
    | some pref =>
      match portal_try_clip (P.face_of pref) a.point c.point agent_radius with
      | some p =>
        let prev := b.point
        let tail := shorten P agent_radius fuel ({ b with point := p } :: c :: rest)
        let path2 := a :: tail.1
        (if tail.2 = true ∧ prev.distance_squared p > TOLERANCE then
          match fuel with
          | 0 => path2
          | fuel2 + 1 => (shorten P agent_radius fuel2 path2).1
        else path2, true)
      | none =>
        let tail := shorten P agent_radius fuel (b :: c :: rest)
        (a :: tail.1, tail.2)
    | none =>
      let tail := shorten P agent_radius fuel (b :: c :: rest)
      (a :: tail.1, tail.2)
  | _, l => (l, true)
termination_by fuel l => (fuel, l.length)

/-- Endpoint-clip resolution, `resolve_clip` in astar/mod.rs: shift an
intermediate way point docked within `margin + TOL` of a portal endpoint
flagged adjacent, by the portal normal scaled with the difference of the
approach incidences, then recurse down the path. -/
def resolve_clip (P : Portals) (margin : ℚ) : List WayPoint → List WayPoint
  | a :: b :: c :: rest =>
    let b2 :=
      match b.portal with
      | some pref =>
        let face := P.face_of pref
        if (b.point.distance face.v0 < margin + TOLERANCE ∧ pref.adjacent.1 = true) ∨
            (b.point.distance face.v1 < margin + TOLERANCE ∧ pref.adjacent.2 = true) then
          let normal := pref.normal
          let a_inc := |((a.point - b.point).normalize_or_zero).perp_dot normal|
          let c_inc := |((c.point - b.point).normalize_or_zero).perp_dot normal|
          { b with point := b.point + (margin * (c_inc - a_inc)) • normal }
        else b
      | none => b
    a :: resolve_clip P margin (b2 :: c :: rest)
  | l => l
termination_by l => l.length

theorem popMin_none_iff : ∀ l : List Backtrace, popMin l = none ↔ l = [] := by
  intro l
  cases l with
  | nil => simp [popMin]
  | cons b tl =>
    rw [popMin]
    cases popMin tl with
    | none => simp
    | some pair =>
      obtain ⟨m, r⟩ := pair
      dsimp only
      split_ifs <;> simp

theorem popMin_length : ∀ (l : List Backtrace) (m : Backtrace) (rest : List Backtrace),
    popMin l = some (m, rest) → rest.length + 1 = l.length := by
  intro l
  induction l with
  | nil => intro m rest hp; exact absurd hp (by simp [popMin])
  | cons b tl ih =>
    intro m rest hp
    rw [popMin] at hp
    revert hp
    cases hp2 : popMin tl with
    | none =>
      intro hp
      rw [Option.some.injEq, Prod.mk.injEq] at hp
      have htl : tl = [] := (popMin_none_iff tl).mp hp2
      rw [← hp.2, htl]
      rfl
    | some pair =>
      obtain ⟨m2, rest2⟩ := pair
      intro hp
      dsimp only at hp
      by_cases hc : b.total_cost ≤ m2.total_cost
      · rw [if_pos hc, Option.some.injEq, Prod.mk.injEq] at hp
        rw [← hp.2]
        simp
      · rw [if_neg hc, Option.some.injEq, Prod.mk.injEq] at hp
        have := ih m2 rest2 hp2
        rw [← hp.2]
        simp only [List.length_cons]
        omega

theorem popMin_mem : ∀ (l : List Backtrace) (m : Backtrace) (rest : List Backtrace),
    popMin l = some (m, rest) → m ∈ l := by
  intro l
  induction l with
  | nil => intro m rest hp; exact absurd hp (by simp [popMin])
  | cons b tl ih =>
    intro m rest hp
    rw [popMin] at hp
    revert hp
    cases hp2 : popMin tl with
    | none =>
      intro hp
      rw [Option.some.injEq, Prod.mk.injEq] at hp
      rw [← hp.1]
      simp
    | some pair =>
      obtain ⟨m2, rest2⟩ := pair
      intro hp
      dsimp only at hp
      by_cases hc : b.total_cost ≤ m2.total_cost
      · rw [if_pos hc, Option.some.injEq, Prod.mk.injEq] at hp
        rw [← hp.1]
        simp
      · rw [if_neg hc, Option.some.injEq, Prod.mk.injEq] at hp
        rw [← hp.1]
        exact List.mem_cons_of_mem b (ih m2 rest2 hp2)

theorem popMin_rest_mem : ∀ (l : List Backtrace) (m : Backtrace) (rest : List Backtrace),
    popMin l = some (m, rest) → ∀ x ∈ rest, x ∈ l := by
  intro l
  induction l with
  | nil => intro m rest hp; exact absurd hp (by simp [popMin])
  | cons b tl ih =>
    intro m rest hp
    rw [popMin] at hp
    revert hp
    cases hp2 : popMin tl with
    | none =>
      intro hp
      rw [Option.some.injEq, Prod.mk.injEq] at hp
      rw [← hp.2]
      intro x hx
      cases hx
    | some pair =>
      obtain ⟨m2, rest2⟩ := pair
      intro hp
      dsimp only at hp
      by_cases hc : b.total_cost ≤ m2.total_cost
      · rw [if_pos hc, Option.some.injEq, Prod.mk.injEq] at hp
        rw [← hp.2]
        intro x hx
        exact List.mem_cons_of_mem b hx
      · rw [if_neg hc, Option.some.injEq, Prod.mk.injEq] at hp
        rw [← hp.2]
        intro x hx
        rcases List.mem_cons.mp hx with rfl | hx2
        · simp
        · exact List.mem_cons_of_mem b (ih m2 rest2 hp2 x hx2)

theorem filter_length_mono {α : Type} (p1 p2 : α → Bool)
    (himp : ∀ a, p2 a = true → p1 a = true) :
    ∀ l : List α, (l.filter p2).length ≤ (l.filter p1).length := by
  intro l
  induction l with
  | nil => simp
  | cons a rest ih =>
    rw [List.filter_cons, List.filter_cons]
    cases h2 : p2 a
    · cases p1 a <;> dsimp <;> omega
    · rw [himp a h2]
      dsimp
      omega

theorem filter_length_lt {α : Type} (p1 p2 : α → Bool)
    (himp : ∀ a, p2 a = true → p1 a = true) (x : α) (h1 : p1 x = true)
    (h2 : p2 x = false) :
    ∀ l : List α, x ∈ l → (l.filter p2).length < (l.filter p1).length := by
  intro l
  induction l with
  | nil => intro hx; cases hx
  | cons a rest ih =>
    intro hx
    rw [List.filter_cons, List.filter_cons]
    rcases List.mem_cons.mp hx with rfl | hmem
    · rw [h1, h2]
      dsimp
      have := filter_length_mono p1 p2 himp rest
      omega
    · have hlt := ih hmem
      cases hp2 : p2 a
      · cases p1 a <;> dsimp <;> omega
      · rw [himp a hp2]
        dsimp
        omega

/-- Nodes of the univ not yet closed: the termination measure of the
A* loop. -/
def remaining (univ closed : List NodeIndex) : Nat :=
  (univ.dedup.filter (fun i => decide (i ∉ closed))).length

theorem remaining_lt (univ closed : List NodeIndex) (x : NodeIndex)
    (hx : x ∈ univ) (hnx : x ∉ closed) :
    remaining univ (x :: closed) < remaining univ closed := by
  refine filter_length_lt (fun i => decide (i ∉ closed))
    (fun i => decide (i ∉ x :: closed)) ?_ x ?_ ?_ univ.dedup ?_
  · intro a ha
    have := of_decide_eq_true ha
    exact decide_eq_true (fun hmem => this (List.mem_cons_of_mem x hmem))
  · exact decide_eq_true hnx
  · simp
  · exact List.mem_dedup.mpr hx

theorem expand_portal_node (P : Portals) (agent_radius : ℚ) (endp : Vec2)
    (h : Vec2 → Vec2 → ℚ) (closed : List NodeIndex) (current : Backtrace)
    (pr : PortalRef) (bt : Backtrace) :
    expand_portal P agent_radius endp h closed current pr = some bt →
      bt.node = pr.dst := by
  unfold expand_portal
  dsimp only
  split_ifs <;> intro hc <;> cases hc <;> rfl

theorem expand_all_nodes (P : Portals) (agent_radius : ℚ) (endp : Vec2)
    (h : Vec2 → Vec2 → ℚ) (closed : List NodeIndex) (current : Backtrace) :
    ∀ (prs : List PortalRef) (bts : NodeIndex → Option Backtrace) (bt : Backtrace),
      bt ∈ (expand_all P agent_radius endp h closed current prs bts).2 →
      ∃ pr ∈ prs, bt.node = pr.dst := by
  intro prs
  induction prs with
  | nil =>
    intro bts bt hbt
    exact absurd hbt (by simp [expand_all])
  | cons pr rest ih =>
    intro bts bt hbt
    rw [expand_all] at hbt
    cases hep : expand_portal P agent_radius endp h closed current pr with
    | none =>
      rw [hep] at hbt
      dsimp only at hbt
      obtain ⟨pr2, hpr2, he⟩ := ih bts bt hbt
      exact ⟨pr2, List.mem_cons_of_mem pr hpr2, he⟩
    | some cand =>
      rw [hep] at hbt
      dsimp only at hbt
      cases hr : relax bts cand with
      | none =>
        rw [hr] at hbt
        dsimp only at hbt
        obtain ⟨pr2, hpr2, he⟩ := ih bts bt hbt
        exact ⟨pr2, List.mem_cons_of_mem pr hpr2, he⟩
      | some bts2 =>
        rw [hr] at hbt
        dsimp only at hbt
        rcases List.mem_cons.mp hbt with rfl | hbt2
        · exact ⟨pr, by simp, expand_portal_node P agent_radius endp h closed current pr bt hep⟩
        · obtain ⟨pr2, hpr2, he⟩ := ih bts2 bt hbt2
          exact ⟨pr2, List.mem_cons_of_mem pr hpr2, he⟩

/-- All destination leaves referenced anywhere in the portal store. -/
def Portals.all_dsts (P : Portals) : List NodeIndex :=
  P.inner.flatMap (fun kv => kv.2.map PortalRef.dst)

theorem assocGet_dst_mem :
    ∀ (m : List (NodeIndex × List PortalRef)) (i : NodeIndex) (pr : PortalRef),
      pr ∈ assocGet m i →
      pr.dst ∈ m.flatMap (fun kv => kv.2.map PortalRef.dst) := by
  intro m
  induction m with
  | nil => intro i pr hpr; cases hpr
  | cons kv rest ih =>
    intro i pr hpr
    rw [assocGet] at hpr
    rw [List.flatMap_cons, List.mem_append]
    revert hpr
    by_cases hk : kv.1 = i
    · rw [if_pos hk]
      intro hpr
      exact Or.inl (List.mem_map.mpr ⟨pr, hpr, rfl⟩)
    · rw [if_neg hk]
      intro hpr
      exact Or.inr (ih i pr hpr)

theorem get_dst_mem_all_dsts (P : Portals) (i : NodeIndex) (pr : PortalRef)
    (hpr : pr ∈ P.get i) : pr.dst ∈ P.all_dsts :=
  assocGet_dst_mem P.inner i pr hpr

/-- The main A* loop of `astar` in astar/mod.rs: pop the lowest-cost entry,
drop it if already closed, reconstruct and post-process when it is the end
leaf, otherwise expand its portals, relax the backtrace map, extend the
open set and close the node.  Returns None when the open set empties.  The
two final proof arguments record that the univ of the termination
measure covers every node the open set can mention. -/
def astar_loop (P : Portals) (endp : Vec2) (end_node : NodeIndex)
    (h : Vec2 → Vec2 → ℚ) (agent_radius : ℚ) (univ : List NodeIndex)
    (openl : List Backtrace) (closed : List NodeIndex)
    (bts : NodeIndex → Option Backtrace)
    (huniv : ∀ x ∈ P.all_dsts, x ∈ univ)
    (hinv : ∀ bt ∈ openl, bt.node ∈ univ) : Option RPath :=
  match hpop : popMin openl with
  | none => none
  | some (current, rest) =>
    if hcl : current.node ∈ closed then
      astar_loop P endp end_node h agent_radius univ rest closed bts huniv
        (fun bt hbt => hinv bt (popMin_rest_mem openl current rest hpop bt hbt))
    else if current.node = end_node then
      let path0 := backtrace_build endp current.node bts (univ.length + 1)
      some (resolve_clip P agent_radius
        (shorten P agent_radius (path0.length * path0.length + 1) path0).1)
    else
      let ex := expand_all P agent_radius endp h closed current (P.get current.node) bts
      astar_loop P endp end_node h agent_radius univ (rest ++ ex.2)
        (current.node :: closed) ex.1 huniv
        (fun bt hbt => by
          rcases List.mem_append.mp hbt with h1 | h2
          · exact hinv bt (popMin_rest_mem openl current rest hpop bt h1)
          · obtain ⟨pr, hpr, heq⟩ := expand_all_nodes P agent_radius endp h closed
              current (P.get current.node) bts bt h2
            rw [heq]
            exact huniv pr.dst (get_dst_mem_all_dsts P current.node pr hpr))
termination_by (remaining univ closed, openl.length)
decreasing_by
  · apply Prod.Lex.right
    have := popMin_length openl current rest hpop
    omega
  · apply Prod.Lex.left
    exact remaining_lt univ closed current.node
      (hinv current (popMin_mem openl current rest hpop)) hcl

/-- Entry point `astar` in astar/mod.rs: locate the two leaves, seed the
open set and backtrace map with the start entry and run the loop.  The
Rust function writes the result into a caller-provided `Option<Path>` and
returns a reference to it; the model returns the written path. -/
def astar (t : BSPTree) (P : Portals) (start endp : Vec2)
    (h : Vec2 → Vec2 → ℚ) (info : SearchInfo) : Option RPath :=
  let start_node := (t.locate start).index
  let end_node := (t.locate endp).index
  let startbt := Backtrace.start start_node start (h start endp)
  astar_loop P endp end_node h info.agent_radius (start_node :: P.all_dsts)
    [startbt] [] (fun i => if i = start_node then some startbt else none)
    (fun x hx => List.mem_cons_of_mem _ hx)
    (fun bt hbt => by
      rw [List.mem_singleton.mp hbt]
      exact List.mem_cons_self _ _)

/-- The navigation facade (`navigation_context.rs` struct
`NavigationContext`): optional tree plus portal store. -/
structure NavigationContext where
  tree : Option BSPTree
  portals : Portals

/-- Constructor `NavigationContext::new`: build the tree, then generate the
portals when a tree exists.  `Portals::generate` panics on a portal with
equal leaves; this never happens for generated trees (see the C10 theorem),
so the `getD` default is dead and the model is the panic-free Rust
result. -/
def NavigationContext.new (faces : List Face) : NavigationContext :=
  match BSPTree.new faces with
  | none => { tree := none, portals := Portals.empty }
  | some t =>
    { tree := some t, portals := (Portals.empty.generate t).getD Portals.empty }

/-- Facade query `NavigationContext::locate`: None iff the tree is
absent. -/
def NavigationContext.locate (ctx : NavigationContext) (point : Vec2) :
    Option NodePayload :=
  match ctx.tree with
  | some t => some (t.locate point)
  | none => none

/-- Facade query `NavigationContext::find_path`: A* when a tree exists,
otherwise the straight-line path. -/
def NavigationContext.find_path (ctx : NavigationContext) (start endp : Vec2)
    (h : Vec2 → Vec2 → ℚ) (info : SearchInfo) : Option RPath :=
  match ctx.tree with
  | some t => astar t ctx.portals start endp h info
  | none => some (RPath.euclidian start endp)

/-- C1: `BSPTree::new(faces)` returns None iff the face list is empty;
`NavigationContext::locate` returns None iff the scene had no faces; with
the tree absent `find_path` returns Some of exactly the two waypoints
start and end, and with a tree present it returns None iff the A* search
over the portal graph yields no path. -/
theorem option_contract (faces : List Face) (p s e : Vec2)
    (h : Vec2 → Vec2 → ℚ) (info : SearchInfo) :
    ((BSPTree.new faces = none) ↔ faces = []) ∧
    ((NavigationContext.new faces).locate p = none ↔ faces = []) ∧
    (match (NavigationContext.new faces).tree with
     | none =>
       (NavigationContext.new faces).find_path s e h info =
           some (RPath.euclidian s e) ∧
       RPath.euclidian s e = [⟨s, nullIndex, none⟩, ⟨e, nullIndex, none⟩]
     | some t =>
       ((NavigationContext.new faces).find_path s e h info = none ↔
         astar t (NavigationContext.new faces).portals s e h info = none)) := by
  have hnew : (BSPTree.new faces = none) ↔ faces = [] := by
    cases faces with
    | nil =>
      simp [BSPTree.new, BSPTree.new_inner, from_faces]
    | cons f fs =>
      obtain ⟨t, ht⟩ := new_cons_some f fs
      rw [ht]
      simp
  refine ⟨hnew, ?_, ?_⟩
  · cases hbt : BSPTree.new faces with
    | none =>
      simp only [NavigationContext.new, hbt, NavigationContext.locate]
      simp [hnew.mp hbt]
    | some t =>
      simp only [NavigationContext.new, hbt, NavigationContext.locate]
      constructor
      · intro hco
        exact absurd hco (by simp)
      · intro hfa
        exact absurd (hnew.mpr hfa) (by simp [hbt])
  · cases hbt : BSPTree.new faces with
    | none =>
      simp only [NavigationContext.new, hbt, NavigationContext.find_path]
      exact ⟨trivial, rfl⟩
    | some t =>
      simp only [NavigationContext.new, hbt, NavigationContext.find_path]

/-- Predicate written from the words of claim C5: the portal is skipped
when the portal face shrunk by the agent radius at both ends has length at
most zero, or the destination leaf is closed, or the destination equals
the current node. -/
def claimed_skip (P : Portals) (agent_radius : ℚ) (closed : List NodeIndex)
    (curNode : NodeIndex) (portal : PortalRef) : Prop :=
  (apply_margin (P.face_of portal) agent_radius).1.distance
      ((apply_margin (P.face_of portal) agent_radius).2) ≤ 0 ∨
  portal.dst ∈ closed ∨ portal.dst = curNode

/-- C5 (amended): in the A* expansion loop a portal of the current node is
skipped (no candidate crossing is generated) precisely when the
destination equals the current node, or the portal face shrunk by the
agent radius at both ends has length strictly below twice the agent
radius, or the destination leaf is in the closed set; in every other case
a candidate backtrace crossing that portal is generated (and is then
relaxed against the backtrace map). -/
theorem astar_skip_iff (P : Portals) (agent_radius : ℚ) (endp : Vec2)
    (h : Vec2 → Vec2 → ℚ) (closed : List NodeIndex) (current : Backtrace)
    (portal : PortalRef) :
    expand_portal P agent_radius endp h closed current portal = none ↔
      (portal.dst = current.node ∨
       (apply_margin (P.face_of portal) agent_radius).1.distance
           ((apply_margin (P.face_of portal) agent_radius).2) < 2 * agent_radius ∨
       portal.dst ∈ closed) := by
  unfold expand_portal
  dsimp only
  split_ifs with hs
  · simp [hs]
  · simp [hs]

theorem rat_sqrt_nine : Rat.sqrt (9 : ℚ) = 3 := by
  rw [show (9 : ℚ) = 3 * 3 by norm_num, Rat.sqrt_eq]
  norm_num

theorem rat_sqrt_one : Rat.sqrt (1 : ℚ) = 1 := by
  rw [show (1 : ℚ) = 1 * 1 by norm_num, Rat.sqrt_eq]
  norm_num

/-- Counterexample to C5 as stated: a portal face of length 3 with agent
radius 1 keeps a positive shrunk length 1 (the claimed conditions do not
skip it), yet the code skips it because the shrunk length is below twice
the agent radius. -/
theorem astar_skip_counterexample :
    expand_portal { inner := [], faces := [⟨⟨0, -1⟩, ⟨0, 0⟩, ⟨3, 0⟩⟩] } 1 ⟨100, 0⟩
        (fun a b => a.distance b) [] (Backtrace.start 0 ⟨0, 0⟩ 0)
        { src := 0, dst := 1, face := 0, normal := ⟨0, 1⟩, adjacent := (false, false) } =
      none ∧
    ¬ claimed_skip { inner := [], faces := [⟨⟨0, -1⟩, ⟨0, 0⟩, ⟨3, 0⟩⟩] } 1 [] 0
        { src := 0, dst := 1, face := 0, normal := ⟨0, 1⟩, adjacent := (false, false) } := by
  have hface : Portals.face_of { inner := [], faces := [⟨⟨0, -1⟩, ⟨0, 0⟩, ⟨3, 0⟩⟩] }
      { src := 0, dst := 1, face := 0, normal := ⟨0, 1⟩, adjacent := (false, false) } =
      ⟨⟨0, -1⟩, ⟨0, 0⟩, ⟨3, 0⟩⟩ := rfl
  have hmargin : apply_margin (⟨⟨0, -1⟩, ⟨0, 0⟩, ⟨3, 0⟩⟩ : Face) 1 = (⟨1, 0⟩, ⟨2, 0⟩) := by
    norm_num [apply_margin, Face.dir, Vec2.normalize, Vec2.length, Vec2.length_squared,
      Vec2_sub_def, Vec2_add_def, Vec2_smul_def, rat_sqrt_nine]
  have hdist : (⟨1, 0⟩ : Vec2).distance ⟨2, 0⟩ = 1 := by
    norm_num [Vec2.distance, Vec2.length, Vec2.length_squared, Vec2_sub_def, rat_sqrt_one]
  constructor
  · rw [astar_skip_iff, hface, hmargin]
    dsimp only
    rw [hdist]
    norm_num [Backtrace.start]
  · unfold claimed_skip
    rw [hface, hmargin]
    dsimp only
    rw [hdist]
    norm_num
